import Mathlib

/-!
Verification of the lvis-api repository against its specification.

The Python sources under src/lvis are shallowly embedded below:

* JSON records become structures whose optional fields are `Option`-typed
  (`none` models a record that lacks the key; indexing a missing key with
  `record["key"]` raises a Python `KeyError`, which the embedding surfaces
  through `Except.error`, while `record.get("key")` yields `none` silently).
* Python numbers (bbox coordinates, areas, image dimensions) are embedded
  as exact rationals `ℚ`; the `"%.6f"` float formatting of `export_labels`
  is modelled as rounding the exact value to six decimal digits.
* The label directory on disk becomes an association list `FS` from file
  name to the list of lines the file holds; appending a line and reading a
  file back line-by-line are explicit `FS` operations.
* Python `str.strip()` is modelled by `pyStrip` (drop whitespace from both
  ends), `"...".split("/")` by `splitChar`, and `os.path.splitext` by
  `splitextBase` (the leading-dot special case of hidden files is not
  modelled; no claim involves such names).
-/

namespace LVIS

/-- An annotation record (src/lvis/lvis.py).  The fields `id`, `image_id`,
`category_id` and `area` are always accessed with `ann["..."]` by the code
under scrutiny and are embedded as total fields; `bbox` is accessed with
`ann.get('bbox', None)` and is embedded as an `Option`. -/
structure Ann where
  id : Nat
  image_id : Nat
  category_id : Nat
  area : ℚ
  bbox : Option (List ℚ)
deriving DecidableEq

/-- An image record.  `coco_url`, `width` and `height` are `Option`-typed:
`none` models a record that lacks the key, so that `img["width"]` on it
raises `KeyError`. -/
structure Image where
  id : Nat
  coco_url : Option String
  width : Option ℚ
  height : Option ℚ
deriving DecidableEq

/-- A category record as consumed by the category filters
(src/lvis/extract.py, src/lvis/automate_lvis.py).  Only the fields those
filters touch are embedded; `none` models a record lacking the key. -/
structure Category where
  id : Nat
  synset : Option String
  name : Option String
  image_count : Option Nat
deriving DecidableEq

/-- The loaded dataset: the `images` and `annotations` arrays of the
annotation JSON, in file order.  (The `categories` array is consumed
separately by the category filters, which read a category list directly.) -/
structure Dataset where
  images : List Image
  annotations : List Ann
deriving DecidableEq

/-! ## Dictionary model

Python dict semantics for the id-keyed maps built by `_create_index`:
re-inserting a key keeps its original position but overwrites the value,
`d[k]` raises `KeyError` when the key is absent, `d.values()` lists values
in key-insertion order. -/

/-- First-occurrence deduplication (Python set/dict key order model). -/
def dedupFirst : List Nat → List Nat
  | [] => []
  | x :: xs => x :: (dedupFirst xs).filter (fun y => y ≠ x)

/-- Lookup in an insertion-ordered association list, the last binding of a
key winning, as repeated `d[k] = v` assignments do in Python. -/
def dictGet {V : Type} (d : List (Nat × V)) (i : Nat) : Option V :=
  (d.reverse.find? (fun e => e.1 == i)).map (fun e => e.2)

/-- The keys of the association list in first-insertion order. -/
def dictKeys {V : Type} (d : List (Nat × V)) : List Nat :=
  dedupFirst (d.map (fun e => e.1))

/-- Python `dict.values()`: values in first-insertion key order, the last
binding of each key winning. -/
def dictValues {V : Type} (d : List (Nat × V)) : List V :=
  (dictKeys d).filterMap (fun i => dictGet d i)

/-- The list comprehension `[_dict[id] for id in ids]` of `_load_helper`:
values for the given ids in the given order, raising `KeyError` at the
first id absent from the map. -/
def loadByIds {V : Type} (d : List (Nat × V)) : List Nat → Except String (List V)
  | [] => .ok []
  | i :: rest =>
    match dictGet d i with
    | none => .error ("KeyError")
    | some v =>
      match loadByIds d rest with
      | .error e => .error e
      | .ok vs => .ok (v :: vs)

/-- `LVIS._load_helper` (src/lvis/lvis.py lines 120-124): all values when
`ids` is `None`, otherwise the values for exactly the given ids. -/
def loadHelper {V : Type} (d : List (Nat × V)) (ids : Option (List Nat)) :
    Except String (List V) :=
  match ids with
  | none => .ok (dictValues d)
  | some l => loadByIds d l

/-- The `self.imgs` map of `_create_index`: `imgs[img["id"]] = img` over
the dataset's image list. -/
def imgsDict (d : Dataset) : List (Nat × Image) :=
  d.images.map (fun im => (im.id, im))

/-- `LVIS.load_imgs` restricted to an explicit id list, as `export_labels`
calls it. -/
def load_imgs (d : Dataset) (ids : List Nat) : Except String (List Image) :=
  loadHelper (imgsDict d) (some ids)

/-! ## get_ann_ids (src/lvis/lvis.py lines 67-101) -/

/-- The source annotation list of `get_ann_ids`: for explicit `img_ids` the
concatenation of `img_ann_map[img_id]` in the given image order (the index
holds each image's annotations in file order, and an unknown image id hits
the `defaultdict` default, the empty list); otherwise the full annotation
collection. -/
def sourceAnns (d : Dataset) : Option (List Nat) → List Ann
  | none => d.annotations
  | some ids =>
    ids.foldr (fun i acc => d.annotations.filter (fun a => a.image_id == i) ++ acc) []

/-- `LVIS.get_ann_ids`.  The early return fires only when both `cat_ids`
and `area_rng` are `None`; otherwise the code runs `set(cat_ids)`, which
raises `TypeError` when `cat_ids` is `None`, and else filters by category
membership and the exclusive area bounds, the range defaulting to
`[0, float("inf"))` (the upper bound is embedded in `WithTop ℚ`). -/
def get_ann_ids (d : Dataset) (imgIds catIds : Option (List Nat))
    (areaRng : Option (ℚ × WithTop ℚ)) : Except String (List Nat) :=
  let anns := sourceAnns d imgIds
  match catIds, areaRng with
  | none, none => .ok (anns.map (fun a => a.id))
  | none, some _ => .error ("TypeError: argument of type NoneType is not iterable")
  | some cs, rng =>
    let r := rng.getD ((0 : ℚ), (⊤ : WithTop ℚ))
    .ok ((anns.filter (fun a =>
      decide (a.category_id ∈ cs) && decide (r.1 < a.area) &&
        decide ((a.area : WithTop ℚ) < r.2))).map (fun a => a.id))

/-! ## Theorems for claims C4, C5, C8, C10 -/

/-- C4.  With a category-id set and an explicit area range (or the default
range), `get_ann_ids` succeeds and returns an annotation id exactly when
some source annotation carries it with `category_id` in the set and `area`
strictly between the bounds; with the default range the lower bound is `0`
(so a zero-area annotation is excluded) and the upper bound is `⊤`. -/
theorem get_ann_ids_filter_spec (d : Dataset) (imgIds : Option (List Nat))
    (cs : List Nat) (lo : ℚ) (hi : WithTop ℚ) :
    (∃ r, get_ann_ids d imgIds (some cs) (some (lo, hi)) = .ok r ∧
      ∀ x, x ∈ r ↔ ∃ a ∈ sourceAnns d imgIds,
        a.id = x ∧ a.category_id ∈ cs ∧ lo < a.area ∧ (a.area : WithTop ℚ) < hi) ∧
    (∃ r, get_ann_ids d imgIds (some cs) none = .ok r ∧
      ∀ x, x ∈ r ↔ ∃ a ∈ sourceAnns d imgIds,
        a.id = x ∧ a.category_id ∈ cs ∧ 0 < a.area) := by
  constructor
  · refine ⟨_, rfl, fun x => ?_⟩
    simp only [List.mem_map, List.mem_filter, Bool.and_eq_true, decide_eq_true_eq,
      Option.getD_some]
    tauto
  · refine ⟨_, rfl, fun x => ?_⟩
    simp only [List.mem_map, List.mem_filter, Bool.and_eq_true, decide_eq_true_eq,
      Option.getD_none]
    constructor
    · rintro ⟨a, ⟨ha, ⟨hc, hlo⟩, _⟩, hid⟩
      exact ⟨a, ha, hid, hc, hlo⟩
    · rintro ⟨a, ha, hid, hc, hlo⟩
      exact ⟨a, ⟨ha, ⟨hc, hlo⟩, WithTop.coe_lt_top a.area⟩, hid⟩

/-- A concrete dataset: one image (`id = 1`, 100×50, URL ending in
`pic.jpg`) and one annotation of category 7 on it with
`bbox = [10, 10, 20, 10]` and `area = 5`. -/
def dsPic : Dataset :=
  ⟨[⟨1, some ("http://images/pic.jpg"), some 100, some 50⟩],
   [⟨11, 1, 7, 5, some [10, 10, 20, 10]⟩]⟩

/-- C5.  The code, run with an area range but no category ids, executes
`set(cat_ids)` on `None` and raises `TypeError` instead of returning the
area-filtered ids (here the annotation's `area = 5` lies strictly inside
the range `(0, 10)`, so the spec expects `.ok [11]`). -/
theorem get_ann_ids_area_only_raises :
    get_ann_ids dsPic none none (some ((0 : ℚ), ((10 : ℚ) : WithTop ℚ))) =
      .error ("TypeError: argument of type NoneType is not iterable") := rfl

/-- C8.  `_load_helper` returns all of the collection's values when `ids`
is `None`; with ids present it returns exactly the value of each given id
in the given order; and it fails with `KeyError` as soon as a requested id
is absent from the map. -/
theorem loadHelper_spec {V : Type} (d : List (Nat × V)) (ids : List Nat) :
    loadHelper d none = .ok (dictValues d) ∧
    ((∀ i ∈ ids, (dictGet d i).isSome) →
      ∃ vs, loadHelper d (some ids) = .ok vs ∧ vs.length = ids.length ∧
        ∀ (k : Nat) (hk : k < ids.length) (hv : k < vs.length),
          dictGet d (ids.get ⟨k, hk⟩) = some (vs.get ⟨k, hv⟩)) ∧
    ((∃ i ∈ ids, dictGet d i = none) →
      ∃ e, loadHelper d (some ids) = .error e) := by
  refine ⟨rfl, ?_, ?_⟩
  · intro hall
    induction ids with
    | nil => exact ⟨[], rfl, rfl, fun k hk _ => absurd hk (by simp)⟩
    | cons i rest ih =>
      have hi : (dictGet d i).isSome := hall i (List.mem_cons_self i rest)
      obtain ⟨v, hv⟩ : ∃ v, dictGet d i = some v := by
        cases h : dictGet d i with
        | none => rw [h] at hi; exact absurd hi (by simp)
        | some v => exact ⟨v, rfl⟩
      obtain ⟨vs, hvs, hlen, hpt⟩ := ih (fun j hj => hall j (List.mem_cons_of_mem i hj))
      refine ⟨v :: vs, ?_, by simp [hlen], ?_⟩
      · show loadByIds d (i :: rest) = .ok (v :: vs)
        simp only [loadByIds, hv]
        have : loadByIds d rest = .ok vs := hvs
        rw [this]
      · intro k hk hvk
        cases k with
        | zero => simpa using hv
        | succ k' =>
          simp only [List.get_cons_succ]
          exact hpt k' (by simpa using hk) (by simpa using hvk)
  · intro ⟨i, hmem, hnone⟩
    induction ids with
    | nil => cases hmem
    | cons j rest ih =>
      show ∃ e, loadByIds d (j :: rest) = .error e
      rcases List.mem_cons.mp hmem with h | h
      · subst h
        simp only [loadByIds, hnone]
        exact ⟨"KeyError", rfl⟩
      · cases hj : dictGet d j with
        | none => exact ⟨"KeyError", by simp only [loadByIds, hj]⟩
        | some v =>
          obtain ⟨e, he⟩ := ih h
          refine ⟨e, ?_⟩
          simp only [loadByIds, hj]
          have he' : loadByIds d rest = .error e := he
          rw [he']

/-- A concrete dictionary with a re-inserted key, exercising both the
value-overwrite and the insertion-order semantics. -/
def dictEx : List (Nat × String) := [(1, "a"), (2, "b"), (1, "c")]

/-- Witness for C8 at `dictEx`: all values with `ids = None`; the values of
`[2, 1]` in that order; failure on the absent id `5`. -/
theorem loadHelper_spec_witness :
    (loadHelper dictEx none = .ok (dictValues dictEx)) ∧
    (∃ vs, loadHelper dictEx (some [2, 1]) = .ok vs ∧ vs.length = 2 ∧
      ∀ (k : Nat) (hk : k < ([2, 1] : List Nat).length) (hv : k < vs.length),
        dictGet dictEx (([2, 1] : List Nat).get ⟨k, hk⟩) = some (vs.get ⟨k, hv⟩)) ∧
    (∃ e, loadHelper dictEx (some [5]) = .error e) :=
  ⟨(loadHelper_spec dictEx [2, 1]).1,
   (loadHelper_spec dictEx [2, 1]).2.1 (by decide),
   (loadHelper_spec dictEx [5]).2.2 ⟨5, by decide, by decide⟩⟩

/-- C10.  Image ids appearing in no annotation contribute no annotations:
the per-image lists are empty, so `get_ann_ids` over only unknown image ids
returns the empty list without error, with or without a category filter. -/
theorem get_ann_ids_unknown_images (d : Dataset) (imgIds : List Nat)
    (h : ∀ a ∈ d.annotations, a.image_id ∉ imgIds) :
    get_ann_ids d (some imgIds) none none = .ok [] ∧
    ∀ (cs : List Nat) (rng : Option (ℚ × WithTop ℚ)),
      get_ann_ids d (some imgIds) (some cs) rng = .ok [] := by
  have hnil : sourceAnns d (some imgIds) = [] := by
    show imgIds.foldr _ [] = []
    induction imgIds with
    | nil => rfl
    | cons i rest ih =>
      simp only [List.foldr_cons]
      have hf : d.annotations.filter (fun a => a.image_id == i) = [] := by
        rw [List.filter_eq_nil_iff]
        intro a ha
        simp only [beq_iff_eq]
        intro hEq
        exact h a ha (hEq ▸ List.mem_cons_self i rest)
      rw [hf]
      simp only [List.nil_append]
      exact ih (fun a ha hmem => h a ha (List.mem_cons_of_mem i hmem))
  constructor
  · simp only [get_ann_ids, hnil, List.map_nil]
  · intro cs rng
    simp only [get_ann_ids, hnil, List.filter_nil, List.map_nil]

/-- A dataset whose only annotation lives on image `3`. -/
def dsUnknown : Dataset :=
  ⟨[⟨3, some ("http://images/q.jpg"), some 10, some 10⟩],
   [⟨21, 3, 7, 4, none⟩]⟩

/-- Witness for C10: querying `dsUnknown` for the unknown image id `99`
returns the empty list without error, with and without a category set. -/
theorem get_ann_ids_unknown_images_witness :
    get_ann_ids dsUnknown (some [99]) none none = .ok [] ∧
    get_ann_ids dsUnknown (some [99]) (some [7]) none = .ok [] :=
  ⟨(get_ann_ids_unknown_images dsUnknown [99] (by decide)).1,
   (get_ann_ids_unknown_images dsUnknown [99] (by decide)).2 [7] none⟩

/-! ## Category filters (src/lvis/extract.py, src/lvis/automate_lvis.py)

Python's `sorted` is a stable sort; its observable output is modelled by a
stable insertion sort.  `sorted(..., key=..., reverse=True)` keeps equal
keys in input order, as does `insDesc` (an element is inserted before the
first element whose key is not strictly greater). -/

/-- Stable insertion into a list sorted descending by `k`. -/
def insDesc {α : Type} (k : α → Nat) (x : α) : List α → List α
  | [] => [x]
  | y :: ys => if k x < k y then y :: insDesc k x ys else x :: y :: ys

/-- Stable descending sort by a `Nat` key, modelling
`sorted(categories, key=lambda cat: cat['image_count'], reverse=True)`. -/
def sortDescBy {α : Type} (k : α → Nat) : List α → List α
  | [] => []
  | x :: xs => insDesc k x (sortDescBy k xs)

/-- Stable insertion into a list sorted ascending by a `String` key. -/
def insAsc {α : Type} (k : α → String) (x : α) : List α → List α
  | [] => [x]
  | y :: ys => if k y < k x then y :: insAsc k x ys else x :: y :: ys

/-- Stable ascending sort by a `String` key, modelling
`sorted(categories, key=lambda cat: cat['name'], reverse=False)`. -/
def sortAscBy {α : Type} (k : α → String) : List α → List α
  | [] => []
  | x :: xs => insAsc k x (sortAscBy k xs)

/-- The sort key `cat['image_count']`; the `getD` default is only reached
when the guard modelling the `KeyError` has already failed the call. -/
def keyIC (c : Category) : Nat := c.image_count.getD 0

/-- The sort key `cat['name']`; the `getD` default is only reached when
the guard modelling the `KeyError` has already failed the call. -/
def keyName (c : Category) : String := c.name.getD ("")

/-- `get_top_25_categories_by_image_count` (src/lvis/extract.py): sort
descending by `cat['image_count']` (raising `KeyError` when a record lacks
the key, since `sorted` evaluates the key on every record) and return the
first 25. -/
def get_top_25_categories_by_image_count (cats : List Category) :
    Except String (List Category) :=
  if cats.all (fun c => c.image_count.isSome) then
    .ok ((sortDescBy keyIC cats).take 25)
  else .error ("KeyError: image_count")

/-- `get_categories_by_name` (src/lvis/extract.py): keep the categories
whose `cat.get('synset')` is in the name list.  A record lacking `synset`
yields `None`, which is never in a list of strings, so the record is
silently dropped, not an error. -/
def get_categories_by_name (cats : List Category) (names : List String) :
    List Category :=
  cats.filter (fun c =>
    match c.synset with
    | some s => names.contains s
    | none => false)

/-- `get_categories_alphabetized` (src/lvis/automate_lvis.py): sort
ascending by `cat['name']`, raising `KeyError` when a record lacks the
key. -/
def get_categories_alphabetized (cats : List Category) :
    Except String (List Category) :=
  if cats.all (fun c => c.name.isSome) then
    .ok (sortAscBy keyName cats)
  else .error ("KeyError: name")

/-! ### Sorting lemmas -/

lemma mem_insDesc {α : Type} (k : α → Nat) (x : α) :
    ∀ (l : List α) (z : α), z ∈ insDesc k x l ↔ z = x ∨ z ∈ l
  | [], z => by simp [insDesc]
  | y :: ys, z => by
    unfold insDesc
    by_cases hxy : k x < k y
    · rw [if_pos hxy]
      simp only [List.mem_cons, mem_insDesc k x ys z]
      tauto
    · rw [if_neg hxy]
      simp only [List.mem_cons]

lemma insDesc_sorted {α : Type} (k : α → Nat) (x : α) :
    ∀ l : List α, List.Sorted (fun a b => k b ≤ k a) l →
      List.Sorted (fun a b => k b ≤ k a) (insDesc k x l)
  | [], _ => by simp [insDesc]
  | y :: ys, h => by
    rw [List.sorted_cons] at h
    obtain ⟨hy, hys⟩ := h
    unfold insDesc
    by_cases hxy : k x < k y
    · rw [if_pos hxy, List.sorted_cons]
      refine ⟨fun z hz => ?_, insDesc_sorted k x ys hys⟩
      rcases (mem_insDesc k x ys z).mp hz with rfl | hz'
      · exact Nat.le_of_lt hxy
      · exact hy z hz'
    · rw [if_neg hxy, List.sorted_cons]
      refine ⟨fun z hz => ?_, List.sorted_cons.mpr ⟨hy, hys⟩⟩
      rcases List.mem_cons.mp hz with rfl | hz'
      · exact Nat.le_of_not_lt hxy
      · exact le_trans (hy z hz') (Nat.le_of_not_lt hxy)

lemma sortDescBy_sorted {α : Type} (k : α → Nat) :
    ∀ l : List α, List.Sorted (fun a b => k b ≤ k a) (sortDescBy k l)
  | [] => List.sorted_nil
  | x :: xs => insDesc_sorted k x _ (sortDescBy_sorted k xs)

lemma insDesc_filter_key {α : Type} (k : α → Nat) (x : α) (n : Nat) :
    ∀ l : List α, (insDesc k x l).filter (fun y => k y == n) =
      if k x == n then x :: l.filter (fun y => k y == n)
      else l.filter (fun y => k y == n)
  | [] => by
    by_cases h : (k x == n) = true <;> simp [insDesc, List.filter, h]
  | y :: ys => by
    unfold insDesc
    by_cases hxy : k x < k y
    · rw [if_pos hxy]
      simp only [List.filter_cons, insDesc_filter_key k x n ys]
      by_cases hxn : (k x == n) = true
      · have hyn : (k y == n) = false := by
          rw [beq_iff_eq] at hxn
          rw [beq_eq_false_iff_ne]
          omega
        simp [hxn, hyn]
      · have hxn' : (k x == n) = false := by
          rwa [Bool.not_eq_true] at hxn
        simp [hxn']
    · rw [if_neg hxy]
      simp only [List.filter_cons]

lemma sortDescBy_filter_key {α : Type} (k : α → Nat) (n : Nat) :
    ∀ l : List α, (sortDescBy k l).filter (fun y => k y == n) =
      l.filter (fun y => k y == n)
  | [] => rfl
  | x :: xs => by
    simp only [sortDescBy]
    rw [insDesc_filter_key, sortDescBy_filter_key k n xs, List.filter_cons]

/-! ### Theorems for claims C7 and C9 -/

/-- C7 (corrected): the frequency and alphabetical filters do fail with
`KeyError` when a compared record lacks the field, but the by-name filter
uses a defaulting `.get` lookup and silently drops a record lacking
`synset` instead of failing. -/
theorem category_filters_missing_field (cats : List Category) (c : Category)
    (names : List String) (hmem : c ∈ cats) :
    (c.image_count = none →
      get_top_25_categories_by_image_count cats = .error ("KeyError: image_count")) ∧
    (c.name = none →
      get_categories_alphabetized cats = .error ("KeyError: name")) ∧
    (c.synset = none → c ∉ get_categories_by_name cats names) := by
  refine ⟨?_, ?_, ?_⟩
  · intro hc
    unfold get_top_25_categories_by_image_count
    rw [if_neg]
    simp only [List.all_eq_true]
    intro hall
    have h2 := hall c hmem
    rw [hc] at h2
    exact absurd h2 (by simp)
  · intro hc
    unfold get_categories_alphabetized
    rw [if_neg]
    simp only [List.all_eq_true]
    intro hall
    have h2 := hall c hmem
    rw [hc] at h2
    exact absurd h2 (by simp)
  · intro hc hmemF
    have hpred := List.of_mem_filter hmemF
    rw [hc] at hpred
    exact absurd hpred (by simp)

/-- A category record lacking `synset`. -/
def catNoSynset : Category := ⟨7, none, some ("nn"), some 3⟩

/-- A category record lacking `image_count`. -/
def catNoCount : Category := ⟨8, some ("h.n.01"), some ("hh"), none⟩

/-- A category record lacking `name`. -/
def catNoName : Category := ⟨9, some ("i.n.01"), none, some 2⟩

/-- Witness for C7 (amended) at concrete malformed records. -/
theorem category_filters_missing_field_witness :
    (get_top_25_categories_by_image_count [catNoCount] = .error ("KeyError: image_count")) ∧
    (get_categories_alphabetized [catNoName] = .error ("KeyError: name")) ∧
    (catNoSynset ∉ get_categories_by_name [catNoSynset] ["x.n.01"]) :=
  ⟨(category_filters_missing_field [catNoCount] catNoCount ["x.n.01"] (by decide)).1 rfl,
   (category_filters_missing_field [catNoName] catNoName ["x.n.01"] (by decide)).2.1 rfl,
   (category_filters_missing_field [catNoSynset] catNoSynset ["x.n.01"] (by decide)).2.2 rfl⟩

/-- Counterexample to C7 as stated: a record lacking `synset` makes the
by-name filter silently drop that record and return normally — here the
call returns the other, well-formed record and raises nothing, where the
claim requires a `MissingFieldError` failure. -/
theorem get_categories_by_name_no_failure :
    get_categories_by_name [catNoSynset, catNoCount] ["h.n.01"] = [catNoCount] := by
  decide

/-- Categories with image counts `5, 9, 9, 1` in input order. -/
def catA : Category := ⟨1, some ("a.n.01"), some ("aaa"), some 5⟩

/-- Second category, image count 9. -/
def catB : Category := ⟨2, some ("b.n.01"), some ("bbb"), some 9⟩

/-- Third category, image count 9 (tied with `catB`). -/
def catC : Category := ⟨3, some ("c.n.01"), some ("ccc"), some 9⟩

/-- Fourth category, image count 1. -/
def catD : Category := ⟨4, some ("d.n.01"), some ("ddd"), some 1⟩

/-- Counterexample to C9 as stated: the code's N is fixed at 25, so on the
`[5, 9, 9, 1]` input it returns all four categories (sorted, ties in input
order), not the two categories with count 9 that the claim's `N = 2`
instance predicts. -/
theorem get_top_25_counterexample :
    get_top_25_categories_by_image_count [catA, catB, catC, catD] =
      .ok [catB, catC, catA, catD] ∧
    get_top_25_categories_by_image_count [catA, catB, catC, catD] ≠
      .ok [catB, catC] := by
  constructor
  · rfl
  · intro h
    exact absurd (Except.ok.inj h) (by decide)

/-- C9 (amended): the frequency filter stably sorts descending by
`image_count` (equal keys keep input order: filtering the output by any
key value gives the input's sublist for that value, unchanged) and returns
the first 25. -/
theorem get_top_25_spec (cats : List Category)
    (h : ∀ c ∈ cats, c.image_count.isSome) :
    get_top_25_categories_by_image_count cats =
      .ok ((sortDescBy keyIC cats).take 25) ∧
    List.Sorted (fun a b => keyIC b ≤ keyIC a) (sortDescBy keyIC cats) ∧
    (∀ n : Nat, (sortDescBy keyIC cats).filter (fun c => keyIC c == n) =
      cats.filter (fun c => keyIC c == n)) := by
  refine ⟨?_, sortDescBy_sorted keyIC cats, fun n => sortDescBy_filter_key keyIC n cats⟩
  unfold get_top_25_categories_by_image_count
  rw [if_pos]
  rw [List.all_eq_true]
  exact fun c hc => h c hc

/-- Witness for C9 (amended) at the `[5, 9, 9, 1]` input, with the
stability conclusion instantiated at the tied key 9. -/
theorem get_top_25_spec_witness :
    get_top_25_categories_by_image_count [catA, catB, catC, catD] =
      .ok ((sortDescBy keyIC [catA, catB, catC, catD]).take 25) ∧
    List.Sorted (fun a b => keyIC b ≤ keyIC a)
      (sortDescBy keyIC [catA, catB, catC, catD]) ∧
    (sortDescBy keyIC [catA, catB, catC, catD]).filter (fun c => keyIC c == 9) =
      [catA, catB, catC, catD].filter (fun c => keyIC c == 9) :=
  ⟨(get_top_25_spec [catA, catB, catC, catD] (by decide)).1,
   (get_top_25_spec [catA, catB, catC, catD] (by decide)).2.1,
   (get_top_25_spec [catA, catB, catC, catD] (by decide)).2.2 9⟩

/-! ## Label export (src/lvis/lvis.py, `export_labels`, lines 377-465) -/

/-- Python `line.strip()`: drop whitespace from both ends. -/
def pyStrip (s : String) : String :=
  String.mk (((s.toList.dropWhile Char.isWhitespace).reverse.dropWhile
    Char.isWhitespace).reverse)

/-- Split a character list at every occurrence of `c`
(Python `s.split(c)`). -/
def splitChar (c : Char) : List Char → List (List Char)
  | [] => [[]]
  | x :: xs =>
    match splitChar c xs with
    | [] => [[]]
    | g :: gs => if x = c then [] :: g :: gs else (x :: g) :: gs

/-- `coco_url.split("/")[-1]`: the last slash-separated component. -/
def lastComponent (s : String) : String :=
  String.mk ((splitChar '/' s.toList).getLastD [])

/-- `os.path.splitext(name)[0]`: the name with its extension after the
last dot removed (the hidden-file leading-dot special case of
`os.path.splitext` is not modelled; no claim involves such names). -/
def splitextBase (s : String) : String :=
  let cs := s.toList
  if '.' ∈ cs then
    String.mk (((cs.reverse.dropWhile (fun c => c ≠ '.')).drop 1).reverse)
  else s

/-- `os.path.join(dir, name)` for the flat paths the exporter builds. -/
def pathJoin (dir name : String) : String :=
  if dir = "" then name else dir ++ "/" ++ name

/-- Left-pad a natural number to six digits with zeros. -/
def pad6 (m : Nat) : String :=
  let s := toString m
  String.mk (List.replicate (6 - s.length) '0') ++ s

/-- Python `f"{q:.6f}"` on the exact value `q`: round to six decimal
digits and print with exactly six digits after the point.  (CPython
formats the IEEE double nearest to `q`; on the exact values of the claims
the two agree.) -/
def format6 (q : ℚ) : String :=
  let n : ℤ := round (q * 1000000)
  let m := n.natAbs
  (if n < 0 then ("-") else ("")) ++ toString (m / 1000000) ++ "." ++ pad6 (m % 1000000)

/-- One YOLO label line,
`f"{class_idx} {x_center:.6f} {y_center:.6f} {w_norm:.6f} {h_norm:.6f}"`
with `x_center = (x + w/2) / img_width` and so on. -/
def bboxLine (cidx : Nat) (x y bw bh w h : ℚ) : String :=
  toString cidx ++ " " ++ format6 ((x + bw / 2) / w) ++ " " ++
    format6 ((y + bh / 2) / h) ++ " " ++ format6 (bw / w) ++ " " ++ format6 (bh / h)

/-- The labels directory: an association list from file name to the lines
the file holds (a line is stored without its trailing newline). -/
abbrev FS := List (String × List String)

/-- Read a file's lines; `none` when the file does not exist. -/
def fsRead : FS → String → Option (List String)
  | [], _ => none
  | e :: rest, p => if e.1 == p then some e.2 else fsRead rest p

/-- The lines of file `p`, the empty list when it does not exist (the code
treats a missing file as having no existing lines). -/
def fileLines (fs : FS) (p : String) : List String := (fsRead fs p).getD []

/-- Replace the content of file `p` (creating it at the end of the
directory listing when absent). -/
def fsUpdate : FS → String → List String → FS
  | [], p, ls => [(p, ls)]
  | e :: rest, p, ls => if e.1 == p then (p, ls) :: rest else e :: fsUpdate rest p ls

/-- The per-line merge step of `export_labels` (lines 454-465): read the
existing lines into a set of stripped strings; if the new line is already
present skip, otherwise append it (in `"a"` mode, creating the file if
needed). -/
def fsAppendIfAbsent (fs : FS) (p l : String) : FS :=
  if l ∈ (fileLines fs p).map pyStrip then fs
  else fsUpdate fs p (fileLines fs p ++ [l])

/-- The byte content of a label file: each line followed by a newline. -/
def renderFile (ls : List String) : String :=
  String.join (ls.map (fun l => l ++ "\n"))

/-- The line an annotation contributes: `ann.get('bbox', None)` must be a
truthy 4-tuple, otherwise the annotation is skipped. -/
def annLine (cidx : Nat) (w h : ℚ) (a : Ann) : Option String :=
  match a.bbox with
  | some [x, y, bw, bh] => some (bboxLine cidx x y bw bh w h)
  | _ => none

/-- `LVIS.get_image_ids`: the set of image ids carrying an annotation of
the category.  (A Python set; iteration order is modelled as
first-occurrence order, and no claim depends on the order.) -/
def get_image_ids (d : Dataset) (cid : Nat) : List Nat :=
  dedupFirst ((d.annotations.filter (fun a => a.category_id == cid)).map
    (fun a => a.image_id))

/-- `LVIS.get_annotations`: annotations matching the category and the
image-id set, grouped by image id via a `defaultdict` (an id with no
matching annotation maps to the empty list). -/
def get_annotations (d : Dataset) (cid : Nat) (imgIds : List Nat) : Nat → List Ann :=
  fun i => d.annotations.filter (fun a =>
    decide (a.image_id ∈ imgIds) && (a.category_id == cid) && (a.image_id == i))

/-- The per-image body of `export_labels`' loop (lines 406-465): the
`img["coco_url"]`, `img["width"]`, `img["height"]` accesses raise
`KeyError` on a record lacking the key; an image whose url/width/height is
present but falsy is skipped, as is an image with an empty annotation
group; otherwise each annotation's line is merged idempotently into the
image's label file. -/
def processImage (g : Nat → List Ann) (folder : String) (cidx : Nat) (fs : FS)
    (img : Image) : Except String FS :=
  match img.coco_url with
  | none => .error ("KeyError: coco_url")
  | some url =>
    let path := pathJoin folder (splitextBase (lastComponent url) ++ ".txt")
    match img.width with
    | none => .error ("KeyError: width")
    | some w =>
      match img.height with
      | none => .error ("KeyError: height")
      | some h =>
        if url = "" ∨ w = 0 ∨ h = 0 then .ok fs
        else if g img.id = [] then .ok fs
        else .ok ((g img.id).foldl (fun f a =>
          match annLine cidx w h a with
          | some l => fsAppendIfAbsent f path l
          | none => f) fs)

/-- The `for img in imgs:` loop of `export_labels`, threading the label
directory through the per-image bodies. -/
def runImgs (g : Nat → List Ann) (folder : String) (cidx : Nat) :
    List Image → FS → Except String FS
  | [], fs => .ok fs
  | img :: rest, fs =>
    match processImage g folder cidx fs img with
    | .error e => .error e
    | .ok fs' => runImgs g folder cidx rest fs'

/-- `LVIS.export_labels(labels_folder_path, category_id, category_index)`
run against a starting label directory `fs`. -/
def export_labels (d : Dataset) (folder : String) (cid cidx : Nat) (fs : FS) :
    Except String FS :=
  let imgIds := get_image_ids d cid
  match load_imgs d imgIds with
  | .error e => .error e
  | .ok imgs => runImgs (get_annotations d cid imgIds) folder cidx imgs fs

/-- Merging a list of lines one by one into file `p`. -/
def writeLines (fs : FS) (p : String) (L : List String) : FS :=
  L.foldl (fun f l => fsAppendIfAbsent f p l) fs

/-- What `processImage` will do to the directory, independently of the
directory's current content: fail, skip, or merge a fixed line list into a
fixed file. -/
def imgPlan (g : Nat → List Ann) (folder : String) (cidx : Nat) (img : Image) :
    Except String (Option (String × List String)) :=
  match img.coco_url with
  | none => .error ("KeyError: coco_url")
  | some url =>
    let path := pathJoin folder (splitextBase (lastComponent url) ++ ".txt")
    match img.width with
    | none => .error ("KeyError: width")
    | some w =>
      match img.height with
      | none => .error ("KeyError: height")
      | some h =>
        if url = "" ∨ w = 0 ∨ h = 0 then .ok none
        else if g img.id = [] then .ok none
        else .ok (some (path, (g img.id).filterMap (annLine cidx w h)))

/-- All `(file, line)` pairs an export run generates, image ids in set
order. -/
def genPairsAux (d : Dataset) (g : Nat → List Ann) (folder : String) (cidx : Nat) :
    List Nat → List (String × String)
  | [] => []
  | i :: rest =>
    (match dictGet (imgsDict d) i with
     | some img =>
       match imgPlan g folder cidx img with
       | .ok (some (p, L)) => L.map (fun l => (p, l))
       | _ => []
     | none => []) ++ genPairsAux d g folder cidx rest

/-- All `(file, line)` pairs `export_labels d folder cid cidx` generates. -/
def genPairs (d : Dataset) (folder : String) (cid cidx : Nat) :
    List (String × String) :=
  genPairsAux d (get_annotations d cid (get_image_ids d cid)) folder cidx
    (get_image_ids d cid)

/-! ### Formatting evaluation lemmas (the only non-structural computation
in the pipeline is the rational arithmetic inside `format6`) -/

lemma format6_xc : format6 (((10 : ℚ) + 20 / 2) / 100) = "0.200000" := by
  have h : round ((((10 : ℚ) + 20 / 2) / 100) * 1000000) = 200000 := by
    norm_num [round_eq]
  unfold format6
  rw [h]
  decide

lemma format6_yc : format6 (((10 : ℚ) + 10 / 2) / 50) = "0.300000" := by
  have h : round ((((10 : ℚ) + 10 / 2) / 50) * 1000000) = 300000 := by
    norm_num [round_eq]
  unfold format6
  rw [h]
  decide

lemma format6_wn : format6 ((20 : ℚ) / 100) = "0.200000" := by
  have h : round (((20 : ℚ) / 100) * 1000000) = 200000 := by
    norm_num [round_eq]
  unfold format6
  rw [h]
  decide

lemma format6_hn : format6 ((10 : ℚ) / 50) = "0.200000" := by
  have h : round (((10 : ℚ) / 50) * 1000000) = 200000 := by
    norm_num [round_eq]
  unfold format6
  rw [h]
  decide

lemma bboxLine_pic0 : bboxLine 0 10 10 20 10 100 50 =
    "0 0.200000 0.300000 0.200000 0.200000" := by
  unfold bboxLine
  rw [format6_xc, format6_yc, format6_wn, format6_hn]
  decide

/-! ### Theorems for claims C2 and C6 -/

/-- C2.  Exporting category 7 with class index 0 over `dsPic` produces the
single file `pic.txt` holding the one line
`0 0.200000 0.300000 0.200000 0.200000`, whose rendered byte content is
that line followed by a newline; the numbers are
`(10 + 20/2)/100, (10 + 10/2)/50, 20/100, 10/50` printed with six decimal
digits. -/
theorem export_labels_end_to_end :
    export_labels dsPic ("") 7 0 [] =
      .ok [("pic.txt", ["0 0.200000 0.300000 0.200000 0.200000"])] ∧
    renderFile ["0 0.200000 0.300000 0.200000 0.200000"] =
      "0 0.200000 0.300000 0.200000 0.200000\n" := by
  constructor
  · have hstep : export_labels dsPic ("") 7 0 [] =
        .ok [("pic.txt", [bboxLine 0 10 10 20 10 100 50])] := rfl
    rw [hstep, bboxLine_pic0]
  · decide

/-- A dataset whose only image record lacks the `width` key while carrying
an annotation of category 5. -/
def dsNoWidth : Dataset :=
  ⟨[⟨1, some ("http://images/a.jpg"), none, some 50⟩],
   [⟨31, 1, 5, 3, some [1, 1, 1, 1]⟩]⟩

/-- Counterexample to C6 as stated: an image record that lacks the `width`
key makes `export_labels` raise `KeyError` (the code reads `img["width"]`
before its falsy-value check), instead of skipping the image silently. -/
theorem export_labels_missing_width_raises :
    export_labels dsNoWidth ("") 5 0 [] = .error ("KeyError: width") := rfl

/-- C6 (amended): an image whose `coco_url`, `width` and `height` keys are
present but where one of them is falsy (empty url, zero dimension) is
skipped — the directory is returned untouched, no error is raised, and the
loop continues with the remaining images.  A record lacking one of those
keys raises `KeyError` instead. -/
theorem processImage_falsy_field_skips (g : Nat → List Ann) (folder : String)
    (cidx : Nat) (fs : FS) (img : Image) (rest : List Image)
    (u : String) (w h : ℚ)
    (hu : img.coco_url = some u) (hw : img.width = some w)
    (hh : img.height = some h) (hfalsy : u = "" ∨ w = 0 ∨ h = 0) :
    processImage g folder cidx fs img = .ok fs ∧
    runImgs g folder cidx (img :: rest) fs = runImgs g folder cidx rest fs := by
  have h1 : processImage g folder cidx fs img = .ok fs := by
    simp only [processImage, hu, hw, hh]
    rw [if_pos hfalsy]
  refine ⟨h1, ?_⟩
  simp only [runImgs, h1]

/-- An image record whose `coco_url` is present but empty. -/
def imgEmptyUrl : Image := ⟨1, some (""), some 100, some 50⟩

/-- Witness for C6 (amended) at a concrete image with an empty URL. -/
theorem processImage_falsy_field_skips_witness :
    processImage (fun _ => []) ("") 0 [] imgEmptyUrl = .ok [] ∧
    runImgs (fun _ => []) ("") 0 [imgEmptyUrl] [] = runImgs (fun _ => []) ("") 0 [] [] :=
  processImage_falsy_field_skips (fun _ => []) ("") 0 [] imgEmptyUrl [] ("") 100 50
    rfl rfl rfl (Or.inl rfl)

/-! ### The idempotent-merge lemma stack -/

lemma fsRead_fsUpdate_self : ∀ (fs : FS) (p : String) (ls : List String),
    fsRead (fsUpdate fs p ls) p = some ls
  | [], p, ls => by simp [fsUpdate, fsRead]
  | e :: rest, p, ls => by
    unfold fsUpdate
    by_cases h : (e.1 == p) = true
    · rw [if_pos h]
      simp [fsRead]
    · rw [if_neg h]
      unfold fsRead
      rw [if_neg h]
      exact fsRead_fsUpdate_self rest p ls

lemma fsRead_fsUpdate_ne (p' : String) : ∀ (fs : FS) (p : String) (ls : List String),
    p' ≠ p → fsRead (fsUpdate fs p ls) p' = fsRead fs p'
  | [], p, ls, hne => by
    have hb : ¬((p == p') = true) := by
      intro hq
      rw [beq_iff_eq] at hq
      exact hne hq.symm
    unfold fsUpdate fsRead
    rw [if_neg hb]
    rfl
  | e :: rest, p, ls, hne => by
    unfold fsUpdate
    by_cases h : (e.1 == p) = true
    · rw [if_pos h]
      have he : e.1 = p := by rwa [beq_iff_eq] at h
      have h1 : ¬((p == p') = true) := by
        intro hq
        rw [beq_iff_eq] at hq
        exact hne hq.symm
      have h2 : ¬((e.1 == p') = true) := by
        intro hq
        rw [beq_iff_eq] at hq
        rw [he] at hq
        exact hne hq.symm
      unfold fsRead
      rw [if_neg h1, if_neg h2]
    · rw [if_neg h]
      unfold fsRead
      by_cases h2 : (e.1 == p') = true
      · rw [if_pos h2, if_pos h2]
      · rw [if_neg h2, if_neg h2]
        exact fsRead_fsUpdate_ne p' rest p ls hne

lemma fileLines_fsUpdate_self (fs : FS) (p : String) (ls : List String) :
    fileLines (fsUpdate fs p ls) p = ls := by
  simp [fileLines, fsRead_fsUpdate_self]

lemma fileLines_fsUpdate_ne (fs : FS) (p p' : String) (ls : List String)
    (h : p' ≠ p) : fileLines (fsUpdate fs p ls) p' = fileLines fs p' := by
  simp [fileLines, fsRead_fsUpdate_ne p' fs p ls h]

lemma fsAppend_suffix (fs : FS) (p l p' : String) :
    ∃ t, fileLines (fsAppendIfAbsent fs p l) p' = fileLines fs p' ++ t := by
  unfold fsAppendIfAbsent
  by_cases hmem : l ∈ (fileLines fs p).map pyStrip
  · rw [if_pos hmem]
    exact ⟨[], (List.append_nil _).symm⟩
  · rw [if_neg hmem]
    by_cases hp : p' = p
    · subst hp
      rw [fileLines_fsUpdate_self]
      exact ⟨[l], rfl⟩
    · rw [fileLines_fsUpdate_ne fs p p' _ hp]
      exact ⟨[], (List.append_nil _).symm⟩

lemma fsAppend_mem_mono (fs : FS) (p l p' l' : String)
    (h : l' ∈ (fileLines fs p').map pyStrip) :
    l' ∈ (fileLines (fsAppendIfAbsent fs p l) p').map pyStrip := by
  obtain ⟨t, ht⟩ := fsAppend_suffix fs p l p'
  rw [ht, List.map_append]
  exact List.mem_append_left _ h

lemma fsAppend_self_mem (fs : FS) (p l : String) (hl : pyStrip l = l) :
    l ∈ (fileLines (fsAppendIfAbsent fs p l) p).map pyStrip := by
  unfold fsAppendIfAbsent
  by_cases hmem : l ∈ (fileLines fs p).map pyStrip
  · rwa [if_pos hmem]
  · rw [if_neg hmem, fileLines_fsUpdate_self, List.map_append]
    refine List.mem_append_right _ ?_
    simp [hl]

lemma fsAppend_of_mem (fs : FS) (p l : String)
    (hmem : l ∈ (fileLines fs p).map pyStrip) : fsAppendIfAbsent fs p l = fs := by
  unfold fsAppendIfAbsent
  rw [if_pos hmem]

/-- The invariant a label directory built by the exporter keeps: every
stored line is strip-fixed and no file holds a duplicate line. -/
def goodFS (fs : FS) : Prop :=
  ∀ e ∈ fs, (∀ l ∈ e.2, pyStrip l = l) ∧ e.2.Nodup

lemma mem_fsUpdate : ∀ (fs : FS) (p : String) (ls : List String) (e : String × List String),
    e ∈ fsUpdate fs p ls → e ∈ fs ∨ e = (p, ls)
  | [], p, ls, e, he => by
    simp only [fsUpdate, List.mem_singleton] at he
    exact Or.inr he
  | f :: rest, p, ls, e, he => by
    unfold fsUpdate at he
    by_cases h : (f.1 == p) = true
    · rw [if_pos h] at he
      rcases List.mem_cons.mp he with h1 | h1
      · exact Or.inr h1
      · exact Or.inl (List.mem_cons_of_mem f h1)
    · rw [if_neg h] at he
      rcases List.mem_cons.mp he with h1 | h1
      · exact Or.inl (h1 ▸ List.mem_cons_self f rest)
      · rcases mem_fsUpdate rest p ls e h1 with h2 | h2
        · exact Or.inl (List.mem_cons_of_mem f h2)
        · exact Or.inr h2

lemma fsRead_mem : ∀ (fs : FS) (p : String) (ls : List String),
    fsRead fs p = some ls → (p, ls) ∈ fs
  | [], p, ls, h => by cases h
  | e :: rest, p, ls, h => by
    unfold fsRead at h
    by_cases hb : (e.1 == p) = true
    · rw [if_pos hb] at h
      have he : e.1 = p := by rwa [beq_iff_eq] at hb
      have h2 : e.2 = ls := Option.some.inj h
      have : e = (p, ls) := by
        rw [← he, ← h2]
      rw [← this]
      exact List.mem_cons_self e rest
    · rw [if_neg hb] at h
      exact List.mem_cons_of_mem e (fsRead_mem rest p ls h)

lemma goodFS_fsAppend (fs : FS) (p l : String) (hg : goodFS fs)
    (hl : pyStrip l = l) : goodFS (fsAppendIfAbsent fs p l) := by
  unfold fsAppendIfAbsent
  by_cases hmem : l ∈ (fileLines fs p).map pyStrip
  · rwa [if_pos hmem]
  · rw [if_neg hmem]
    intro e he
    rcases mem_fsUpdate fs p _ e he with h1 | h1
    · exact hg e h1
    · subst h1
      cases hread : fsRead fs p with
      | none =>
        have : fileLines fs p = [] := by simp [fileLines, hread]
        rw [this]
        exact ⟨by simpa using hl, List.nodup_singleton l⟩
      | some ls =>
        have hfl : fileLines fs p = ls := by simp [fileLines, hread]
        have hin := hg (p, ls) (fsRead_mem fs p ls hread)
        rw [hfl]
        constructor
        · intro x hx
          rcases List.mem_append.mp hx with h2 | h2
          · exact hin.1 x h2
          · rw [List.mem_singleton.mp h2]
            exact hl
        · rw [List.nodup_append]
          refine ⟨hin.2, List.nodup_singleton l, ?_⟩
          intro x hx hx1
          rw [List.mem_singleton.mp hx1] at hx
          apply hmem
          rw [hfl]
          exact List.mem_map.mpr ⟨l, hx, hl⟩

lemma writeLines_cons (fs : FS) (p l : String) (L : List String) :
    writeLines fs p (l :: L) = writeLines (fsAppendIfAbsent fs p l) p L := rfl

lemma writeLines_suffix : ∀ (L : List String) (fs : FS) (p p' : String),
    ∃ t, fileLines (writeLines fs p L) p' = fileLines fs p' ++ t
  | [], fs, p, p' => ⟨[], (List.append_nil _).symm⟩
  | l :: L, fs, p, p' => by
    rw [writeLines_cons]
    obtain ⟨t1, ht1⟩ := fsAppend_suffix fs p l p'
    obtain ⟨t2, ht2⟩ := writeLines_suffix L (fsAppendIfAbsent fs p l) p p'
    exact ⟨t1 ++ t2, by rw [ht2, ht1, List.append_assoc]⟩

lemma writeLines_mem_mono (L : List String) (fs : FS) (p p' l' : String)
    (h : l' ∈ (fileLines fs p').map pyStrip) :
    l' ∈ (fileLines (writeLines fs p L) p').map pyStrip := by
  obtain ⟨t, ht⟩ := writeLines_suffix L fs p p'
  rw [ht, List.map_append]
  exact List.mem_append_left _ h

lemma writeLines_mem : ∀ (L : List String) (fs : FS) (p l : String),
    l ∈ L → pyStrip l = l →
    l ∈ (fileLines (writeLines fs p L) p).map pyStrip
  | [], _, _, _, hmem, _ => absurd hmem (List.not_mem_nil _)
  | l0 :: L, fs, p, l, hmem, hl => by
    rw [writeLines_cons]
    rcases List.mem_cons.mp hmem with h | h
    · subst h
      exact writeLines_mem_mono L _ p p l (fsAppend_self_mem fs p l hl)
    · exact writeLines_mem L _ p l h hl

lemma writeLines_fixed : ∀ (L : List String) (fs : FS) (p : String),
    (∀ l ∈ L, l ∈ (fileLines fs p).map pyStrip) → writeLines fs p L = fs
  | [], _, _, _ => rfl
  | l0 :: L, fs, p, h => by
    rw [writeLines_cons, fsAppend_of_mem fs p l0 (h l0 (List.mem_cons_self l0 L))]
    exact writeLines_fixed L fs p (fun l hl => h l (List.mem_cons_of_mem l0 hl))

lemma writeLines_good : ∀ (L : List String) (fs : FS) (p : String),
    goodFS fs → (∀ l ∈ L, pyStrip l = l) → goodFS (writeLines fs p L)
  | [], _, _, hg, _ => hg
  | l0 :: L, fs, p, hg, hl => by
    rw [writeLines_cons]
    exact writeLines_good L _ p
      (goodFS_fsAppend fs p l0 hg (hl l0 (List.mem_cons_self l0 L)))
      (fun l h => hl l (List.mem_cons_of_mem l0 h))

lemma mem_of_mem_strip (fs : FS) (p l : String) (hg : goodFS fs)
    (hmem : l ∈ (fileLines fs p).map pyStrip) : l ∈ fileLines fs p := by
  obtain ⟨x, hx, hsx⟩ := List.mem_map.mp hmem
  cases hread : fsRead fs p with
  | none =>
    have : fileLines fs p = [] := by simp [fileLines, hread]
    rw [this] at hx
    cases hx
  | some ls =>
    have hfl : fileLines fs p = ls := by simp [fileLines, hread]
    rw [hfl] at hx ⊢
    have hfix := (hg (p, ls) (fsRead_mem fs p ls hread)).1 x hx
    rw [hfix] at hsx
    rwa [← hsx]

lemma foldl_annLine_eq_writeLines (cidx : Nat) (W H : ℚ) (p : String) :
    ∀ (anns : List Ann) (fs : FS),
      anns.foldl (fun f a =>
        match annLine cidx W H a with
        | some l => fsAppendIfAbsent f p l
        | none => f) fs
      = writeLines fs p (anns.filterMap (annLine cidx W H))
  | [], _ => rfl
  | a :: anns, fs => by
    rw [List.foldl_cons, List.filterMap_cons]
    cases hline : annLine cidx W H a with
    | none =>
      simp only [hline]
      exact foldl_annLine_eq_writeLines cidx W H p anns fs
    | some l =>
      simp only [hline]
      rw [writeLines_cons]
      exact foldl_annLine_eq_writeLines cidx W H p anns (fsAppendIfAbsent fs p l)

lemma processImage_eq_plan (g : Nat → List Ann) (folder : String) (cidx : Nat)
    (fs : FS) (img : Image) :
    processImage g folder cidx fs img =
      match imgPlan g folder cidx img with
      | .error e => .error e
      | .ok none => .ok fs
      | .ok (some (p, L)) => .ok (writeLines fs p L) := by
  unfold processImage imgPlan
  cases img.coco_url with
  | none => rfl
  | some url =>
    cases img.width with
    | none => rfl
    | some W =>
      cases img.height with
      | none => rfl
      | some H =>
        dsimp only
        by_cases hfalsy : url = "" ∨ W = 0 ∨ H = 0
        · rw [if_pos hfalsy, if_pos hfalsy]
        · rw [if_neg hfalsy, if_neg hfalsy]
          by_cases hempty : g img.id = []
          · rw [if_pos hempty, if_pos hempty]
          · rw [if_neg hempty, if_neg hempty]
            rw [foldl_annLine_eq_writeLines]

lemma processImage_suffix (g : Nat → List Ann) (folder : String) (cidx : Nat)
    (fs fs1 : FS) (img : Image)
    (hproc : processImage g folder cidx fs img = .ok fs1) :
    ∀ p', ∃ t, fileLines fs1 p' = fileLines fs p' ++ t := by
  rw [processImage_eq_plan] at hproc
  cases hplan : imgPlan g folder cidx img with
  | error e => rw [hplan] at hproc; exact Except.noConfusion hproc
  | ok o =>
    rw [hplan] at hproc
    cases o with
    | none =>
      have h2 : fs = fs1 := Except.ok.inj hproc
      exact fun p' => ⟨[], by rw [← h2, List.append_nil]⟩
    | some pair =>
      obtain ⟨p, L⟩ := pair
      have h2 : writeLines fs p L = fs1 := Except.ok.inj hproc
      intro p'
      rw [← h2]
      exact writeLines_suffix L fs p p'

lemma processImage_good (g : Nat → List Ann) (folder : String) (cidx : Nat)
    (fs fs1 : FS) (img : Image)
    (hT : ∀ p L, imgPlan g folder cidx img = .ok (some (p, L)) →
      ∀ l ∈ L, pyStrip l = l)
    (hproc : processImage g folder cidx fs img = .ok fs1)
    (hg : goodFS fs) : goodFS fs1 := by
  rw [processImage_eq_plan] at hproc
  cases hplan : imgPlan g folder cidx img with
  | error e => rw [hplan] at hproc; exact Except.noConfusion hproc
  | ok o =>
    rw [hplan] at hproc
    cases o with
    | none =>
      have h2 : fs = fs1 := Except.ok.inj hproc
      rwa [← h2]
    | some pair =>
      obtain ⟨p, L⟩ := pair
      have h2 : writeLines fs p L = fs1 := Except.ok.inj hproc
      rw [← h2]
      exact writeLines_good L fs p hg (hT p L hplan)

lemma processImage_mem (g : Nat → List Ann) (folder : String) (cidx : Nat)
    (fs fs1 : FS) (img : Image) (p : String) (L : List String) (l : String)
    (hproc : processImage g folder cidx fs img = .ok fs1)
    (hplan : imgPlan g folder cidx img = .ok (some (p, L)))
    (hl : l ∈ L) (hstrip : pyStrip l = l) :
    l ∈ (fileLines fs1 p).map pyStrip := by
  rw [processImage_eq_plan, hplan] at hproc
  have h2 : writeLines fs p L = fs1 := Except.ok.inj hproc
  rw [← h2]
  exact writeLines_mem L fs p l hl hstrip

lemma processImage_plan_ok (g : Nat → List Ann) (folder : String) (cidx : Nat)
    (fs fs1 : FS) (img : Image)
    (hproc : processImage g folder cidx fs img = .ok fs1) :
    ∃ o, imgPlan g folder cidx img = .ok o := by
  rw [processImage_eq_plan] at hproc
  cases hplan : imgPlan g folder cidx img with
  | error e => rw [hplan] at hproc; exact Except.noConfusion hproc
  | ok o => exact ⟨o, rfl⟩

lemma processImage_fixed (g : Nat → List Ann) (folder : String) (cidx : Nat)
    (fs : FS) (img : Image)
    (hok : ∃ o, imgPlan g folder cidx img = .ok o)
    (hcont : ∀ p L, imgPlan g folder cidx img = .ok (some (p, L)) →
      ∀ l ∈ L, l ∈ (fileLines fs p).map pyStrip) :
    processImage g folder cidx fs img = .ok fs := by
  obtain ⟨o, ho⟩ := hok
  rw [processImage_eq_plan, ho]
  cases o with
  | none => rfl
  | some pair =>
    obtain ⟨p, L⟩ := pair
    show Except.ok (writeLines fs p L) = Except.ok fs
    rw [writeLines_fixed L fs p (hcont p L ho)]

lemma runImgs_suffix (g : Nat → List Ann) (folder : String) (cidx : Nat) :
    ∀ (imgs : List Image) (fs fs' : FS),
      runImgs g folder cidx imgs fs = .ok fs' →
      ∀ p', ∃ t, fileLines fs' p' = fileLines fs p' ++ t
  | [], fs, fs', hrun, p' => by
    have h2 : fs = fs' := Except.ok.inj hrun
    exact ⟨[], by rw [← h2, List.append_nil]⟩
  | img :: rest, fs, fs', hrun, p' => by
    simp only [runImgs] at hrun
    cases hproc : processImage g folder cidx fs img with
    | error e => rw [hproc] at hrun; exact Except.noConfusion hrun
    | ok fs1 =>
      rw [hproc] at hrun
      obtain ⟨t1, ht1⟩ := processImage_suffix g folder cidx fs fs1 img hproc p'
      obtain ⟨t2, ht2⟩ := runImgs_suffix g folder cidx rest fs1 fs' hrun p'
      exact ⟨t1 ++ t2, by rw [ht2, ht1, List.append_assoc]⟩

lemma runImgs_mem_mono (g : Nat → List Ann) (folder : String) (cidx : Nat)
    (imgs : List Image) (fs fs' : FS) (p' l' : String)
    (hrun : runImgs g folder cidx imgs fs = .ok fs')
    (h : l' ∈ (fileLines fs p').map pyStrip) :
    l' ∈ (fileLines fs' p').map pyStrip := by
  obtain ⟨t, ht⟩ := runImgs_suffix g folder cidx imgs fs fs' hrun p'
  rw [ht, List.map_append]
  exact List.mem_append_left _ h

lemma runImgs_plans_ok (g : Nat → List Ann) (folder : String) (cidx : Nat) :
    ∀ (imgs : List Image) (fs fs' : FS),
      runImgs g folder cidx imgs fs = .ok fs' →
      ∀ img ∈ imgs, ∃ o, imgPlan g folder cidx img = .ok o
  | [], _, _, _, img, hmem => absurd hmem (List.not_mem_nil img)
  | img0 :: rest, fs, fs', hrun, img, hmem => by
    simp only [runImgs] at hrun
    cases hproc : processImage g folder cidx fs img0 with
    | error e => rw [hproc] at hrun; exact Except.noConfusion hrun
    | ok fs1 =>
      rw [hproc] at hrun
      rcases List.mem_cons.mp hmem with h | h
      · subst h
        exact processImage_plan_ok g folder cidx fs fs1 img hproc
      · exact runImgs_plans_ok g folder cidx rest fs1 fs' hrun img h

lemma runImgs_contain (g : Nat → List Ann) (folder : String) (cidx : Nat) :
    ∀ (imgs : List Image) (fs fs' : FS),
      runImgs g folder cidx imgs fs = .ok fs' →
      (∀ img ∈ imgs, ∀ p L, imgPlan g folder cidx img = .ok (some (p, L)) →
        ∀ l ∈ L, pyStrip l = l) →
      ∀ img ∈ imgs, ∀ p L, imgPlan g folder cidx img = .ok (some (p, L)) →
        ∀ l ∈ L, l ∈ (fileLines fs' p).map pyStrip
  | [], _, _, _, _, img, hmem, _, _, _, _, _ => absurd hmem (List.not_mem_nil img)
  | img0 :: rest, fs, fs', hrun, hT, img, hmem, p, L, hplan, l, hl => by
    simp only [runImgs] at hrun
    cases hproc : processImage g folder cidx fs img0 with
    | error e => rw [hproc] at hrun; exact Except.noConfusion hrun
    | ok fs1 =>
      rw [hproc] at hrun
      rcases List.mem_cons.mp hmem with h | h
      · subst h
        have hmem1 := processImage_mem g folder cidx fs fs1 img p L l hproc hplan hl
          (hT img (List.mem_cons_self img rest) p L hplan l hl)
        exact runImgs_mem_mono g folder cidx rest fs1 fs' p l hrun hmem1
      · exact runImgs_contain g folder cidx rest fs1 fs' hrun
          (fun i hi => hT i (List.mem_cons_of_mem img0 hi)) img h p L hplan l hl

lemma runImgs_good (g : Nat → List Ann) (folder : String) (cidx : Nat) :
    ∀ (imgs : List Image) (fs fs' : FS),
      runImgs g folder cidx imgs fs = .ok fs' →
      (∀ img ∈ imgs, ∀ p L, imgPlan g folder cidx img = .ok (some (p, L)) →
        ∀ l ∈ L, pyStrip l = l) →
      goodFS fs → goodFS fs'
  | [], fs, fs', hrun, _, hg => by
    have h2 : fs = fs' := Except.ok.inj hrun
    rwa [← h2]
  | img0 :: rest, fs, fs', hrun, hT, hg => by
    simp only [runImgs] at hrun
    cases hproc : processImage g folder cidx fs img0 with
    | error e => rw [hproc] at hrun; exact Except.noConfusion hrun
    | ok fs1 =>
      rw [hproc] at hrun
      exact runImgs_good g folder cidx rest fs1 fs' hrun
        (fun i hi => hT i (List.mem_cons_of_mem img0 hi))
        (processImage_good g folder cidx fs fs1 img0
          (hT img0 (List.mem_cons_self img0 rest)) hproc hg)

lemma runImgs_fixed (g : Nat → List Ann) (folder : String) (cidx : Nat) :
    ∀ (imgs : List Image) (fs : FS),
      (∀ img ∈ imgs, (∃ o, imgPlan g folder cidx img = .ok o) ∧
        (∀ p L, imgPlan g folder cidx img = .ok (some (p, L)) →
          ∀ l ∈ L, l ∈ (fileLines fs p).map pyStrip)) →
      runImgs g folder cidx imgs fs = .ok fs
  | [], _, _ => rfl
  | img0 :: rest, fs, h => by
    have h0 := h img0 (List.mem_cons_self img0 rest)
    have hfix := processImage_fixed g folder cidx fs img0 h0.1 h0.2
    simp only [runImgs, hfix]
    exact runImgs_fixed g folder cidx rest fs
      (fun i hi => h i (List.mem_cons_of_mem img0 hi))

lemma export_labels_elim (d : Dataset) (folder : String) (cid cidx : Nat)
    (fs fs' : FS) (h : export_labels d folder cid cidx fs = .ok fs') :
    ∃ imgs, load_imgs d (get_image_ids d cid) = .ok imgs ∧
      runImgs (get_annotations d cid (get_image_ids d cid)) folder cidx imgs fs
        = .ok fs' := by
  simp only [export_labels] at h
  cases hload : load_imgs d (get_image_ids d cid) with
  | error e => rw [hload] at h; exact Except.noConfusion h
  | ok imgs =>
    rw [hload] at h
    exact ⟨imgs, rfl, h⟩

lemma loadByIds_plan_pairs (d : Dataset) (g : Nat → List Ann) (folder : String)
    (cidx : Nat) : ∀ (ids : List Nat) (imgs : List Image),
      loadByIds (imgsDict d) ids = .ok imgs →
      ∀ img ∈ imgs, ∀ p L, imgPlan g folder cidx img = .ok (some (p, L)) →
        ∀ l ∈ L, (p, l) ∈ genPairsAux d g folder cidx ids
  | [], imgs, hload, img, hmem, p, L, hplan, l, hl => by
    have h2 : ([] : List Image) = imgs := Except.ok.inj hload
    rw [← h2] at hmem
    exact absurd hmem (List.not_mem_nil img)
  | i :: rest, imgs, hload, img, hmem, p, L, hplan, l, hl => by
    simp only [loadByIds] at hload
    cases hget : dictGet (imgsDict d) i with
    | none => rw [hget] at hload; exact Except.noConfusion hload
    | some v =>
      rw [hget] at hload
      cases hrest : loadByIds (imgsDict d) rest with
      | error e => rw [hrest] at hload; exact Except.noConfusion hload
      | ok vs =>
        rw [hrest] at hload
        have himgs : v :: vs = imgs := Except.ok.inj hload
        rw [← himgs] at hmem
        simp only [genPairsAux, hget]
        rcases List.mem_cons.mp hmem with h | h
        · rw [h] at hplan
          rw [hplan]
          exact List.mem_append_left _ (List.mem_map.mpr ⟨l, hl, rfl⟩)
        · exact List.mem_append_right _
            (loadByIds_plan_pairs d g folder cidx rest vs hrest img h p L hplan l hl)

lemma genPairsAux_mem_loaded (d : Dataset) (g : Nat → List Ann) (folder : String)
    (cidx : Nat) : ∀ (ids : List Nat) (imgs : List Image),
      loadByIds (imgsDict d) ids = .ok imgs →
      ∀ pr : String × String, pr ∈ genPairsAux d g folder cidx ids →
        ∃ img ∈ imgs, ∃ L, imgPlan g folder cidx img = .ok (some (pr.1, L)) ∧ pr.2 ∈ L
  | [], _, _, pr, hpr => absurd hpr (List.not_mem_nil pr)
  | i :: rest, imgs, hload, pr, hpr => by
    simp only [loadByIds] at hload
    cases hget : dictGet (imgsDict d) i with
    | none => rw [hget] at hload; exact Except.noConfusion hload
    | some v =>
      rw [hget] at hload
      cases hrest : loadByIds (imgsDict d) rest with
      | error e => rw [hrest] at hload; exact Except.noConfusion hload
      | ok vs =>
        rw [hrest] at hload
        have himgs : v :: vs = imgs := Except.ok.inj hload
        simp only [genPairsAux, hget] at hpr
        rcases List.mem_append.mp hpr with h | h
        · cases hplan : imgPlan g folder cidx v with
          | error e =>
            rw [hplan] at h
            exact absurd h (List.not_mem_nil pr)
          | ok o =>
            rw [hplan] at h
            cases o with
            | none => exact absurd h (List.not_mem_nil pr)
            | some pair =>
              obtain ⟨p, L⟩ := pair
              obtain ⟨l, hlL, hpl⟩ := List.mem_map.mp h
              refine ⟨v, ?_, L, ?_, ?_⟩
              · rw [← himgs]
                exact List.mem_cons_self v vs
              · rw [← hpl]
                exact hplan
              · rw [← hpl]
                exact hlL
        · obtain ⟨img, hmem, L, hplan2, hprL⟩ :=
            genPairsAux_mem_loaded d g folder cidx rest vs hrest pr h
          refine ⟨img, ?_, L, hplan2, hprL⟩
          rw [← himgs]
          exact List.mem_cons_of_mem v hmem

/-! ### Theorems for claims C1 and C3 -/

/-- C1.  Exporting the same category and class index against the same
dataset twice is idempotent: a second run returns the label directory of
the first run unchanged, that directory holds no duplicate line in any
file, and a line is ever appended only when the file does not already
contain it (the merge step returns the directory unchanged whenever the
line is already present).  The hypothesis `hT` records that every
generated label line is fixed under `strip()`, which holds of every line
the formatter emits. -/
theorem export_labels_idempotent (d : Dataset) (folder : String) (cid cidx : Nat)
    (fs₁ : FS)
    (h1 : export_labels d folder cid cidx [] = .ok fs₁)
    (hT : ∀ pr ∈ genPairs d folder cid cidx, pyStrip pr.2 = pr.2) :
    export_labels d folder cid cidx fs₁ = .ok fs₁ ∧
    (∀ e ∈ fs₁, e.2.Nodup) ∧
    (∀ (fs : FS) (p l : String), l ∈ (fileLines fs p).map pyStrip →
      fsAppendIfAbsent fs p l = fs) := by
  obtain ⟨imgs, hload, hrun⟩ := export_labels_elim d folder cid cidx [] fs₁ h1
  have hT' : ∀ img ∈ imgs, ∀ p L,
      imgPlan (get_annotations d cid (get_image_ids d cid)) folder cidx img
        = .ok (some (p, L)) → ∀ l ∈ L, pyStrip l = l := by
    intro img hmem p L hplan l hl
    exact hT (p, l) (loadByIds_plan_pairs d _ folder cidx (get_image_ids d cid)
      imgs hload img hmem p L hplan l hl)
  have hgood : goodFS fs₁ :=
    runImgs_good _ folder cidx imgs [] fs₁ hrun hT'
      (fun e he => absurd he (List.not_mem_nil e))
  refine ⟨?_, fun e he => (hgood e he).2,
    fun fs p l hmem => fsAppend_of_mem fs p l hmem⟩
  simp only [export_labels]
  rw [hload]
  exact runImgs_fixed _ folder cidx imgs fs₁ (fun img hmem =>
    ⟨runImgs_plans_ok _ folder cidx imgs [] fs₁ hrun img hmem,
     fun p L hplan l hl =>
       runImgs_contain _ folder cidx imgs [] fs₁ hrun hT' img hmem p L hplan l hl⟩)

/-- Witness for C1 at `dsPic`: after one export the directory is the
single file `pic.txt` with its one line; the second run returns it
unchanged, the file has no duplicate, and re-appending the present line is
the identity. -/
theorem export_labels_idempotent_witness :
    export_labels dsPic ("") 7 0
        [("pic.txt", ["0 0.200000 0.300000 0.200000 0.200000"])] =
      .ok [("pic.txt", ["0 0.200000 0.300000 0.200000 0.200000"])] ∧
    (["0 0.200000 0.300000 0.200000 0.200000"] : List String).Nodup ∧
    fsAppendIfAbsent [("pic.txt", ["0 0.200000 0.300000 0.200000 0.200000"])]
        ("pic.txt") ("0 0.200000 0.300000 0.200000 0.200000") =
      [("pic.txt", ["0 0.200000 0.300000 0.200000 0.200000"])] := by
  have hstep : export_labels dsPic ("") 7 0 [] =
      .ok [("pic.txt", [bboxLine 0 10 10 20 10 100 50])] := rfl
  rw [bboxLine_pic0] at hstep
  have hgp : genPairs dsPic ("") 7 0 =
      [("pic.txt", bboxLine 0 10 10 20 10 100 50)] := rfl
  rw [bboxLine_pic0] at hgp
  have hT : ∀ pr ∈ genPairs dsPic ("") 7 0, pyStrip pr.2 = pr.2 := by
    rw [hgp]
    intro pr hpr
    rw [List.mem_singleton] at hpr
    rw [hpr]
    decide
  have H := export_labels_idempotent dsPic ("") 7 0
    [("pic.txt", ["0 0.200000 0.300000 0.200000 0.200000"])] hstep hT
  exact ⟨H.1,
    (H.2.1 ("pic.txt", ["0 0.200000 0.300000 0.200000 0.200000"])
      (List.mem_singleton.mpr rfl)),
    H.2.2 [("pic.txt", ["0 0.200000 0.300000 0.200000 0.200000"])]
      ("pic.txt") ("0 0.200000 0.300000 0.200000 0.200000") (by decide)⟩

/-- C3.  Exporting category A and then category B over the same dataset:
no line of the first export is lost or modified (every file of the first
directory is a prefix of the same file afterwards), every line generated
for A and every line generated for B is present in the final directory
exactly once, and no file holds a duplicate line. -/
theorem export_labels_additive (d : Dataset) (folder : String)
    (cidA idxA cidB idxB : Nat) (fs₁ fs₂ : FS)
    (hA : export_labels d folder cidA idxA [] = .ok fs₁)
    (hB : export_labels d folder cidB idxB fs₁ = .ok fs₂)
    (hTA : ∀ pr ∈ genPairs d folder cidA idxA, pyStrip pr.2 = pr.2)
    (hTB : ∀ pr ∈ genPairs d folder cidB idxB, pyStrip pr.2 = pr.2) :
    (∀ p, ∃ t, fileLines fs₂ p = fileLines fs₁ p ++ t) ∧
    (∀ pr ∈ genPairs d folder cidA idxA, (fileLines fs₂ pr.1).count pr.2 = 1) ∧
    (∀ pr ∈ genPairs d folder cidB idxB, (fileLines fs₂ pr.1).count pr.2 = 1) ∧
    (∀ e ∈ fs₂, e.2.Nodup) := by
  obtain ⟨imgsA, hloadA, hrunA⟩ := export_labels_elim d folder cidA idxA [] fs₁ hA
  obtain ⟨imgsB, hloadB, hrunB⟩ := export_labels_elim d folder cidB idxB fs₁ fs₂ hB
  have hTA' : ∀ img ∈ imgsA, ∀ p L,
      imgPlan (get_annotations d cidA (get_image_ids d cidA)) folder idxA img
        = .ok (some (p, L)) → ∀ l ∈ L, pyStrip l = l := by
    intro img hmem p L hplan l hl
    exact hTA (p, l) (loadByIds_plan_pairs d _ folder idxA (get_image_ids d cidA)
      imgsA hloadA img hmem p L hplan l hl)
  have hTB' : ∀ img ∈ imgsB, ∀ p L,
      imgPlan (get_annotations d cidB (get_image_ids d cidB)) folder idxB img
        = .ok (some (p, L)) → ∀ l ∈ L, pyStrip l = l := by
    intro img hmem p L hplan l hl
    exact hTB (p, l) (loadByIds_plan_pairs d _ folder idxB (get_image_ids d cidB)
      imgsB hloadB img hmem p L hplan l hl)
  have hgood1 : goodFS fs₁ :=
    runImgs_good _ folder idxA imgsA [] fs₁ hrunA hTA'
      (fun e he => absurd he (List.not_mem_nil e))
  have hgood2 : goodFS fs₂ :=
    runImgs_good _ folder idxB imgsB fs₁ fs₂ hrunB hTB' hgood1
  have count_one : ∀ (p l : String), l ∈ (fileLines fs₂ p).map pyStrip →
      (fileLines fs₂ p).count l = 1 := by
    intro p l hmem
    have hlit := mem_of_mem_strip fs₂ p l hgood2 hmem
    cases hread : fsRead fs₂ p with
    | none =>
      have hz : fileLines fs₂ p = [] := by simp [fileLines, hread]
      rw [hz] at hlit
      cases hlit
    | some ls =>
      have hfl : fileLines fs₂ p = ls := by simp [fileLines, hread]
      rw [hfl] at hlit ⊢
      exact List.count_eq_one_of_mem
        (hgood2 (p, ls) (fsRead_mem fs₂ p ls hread)).2 hlit
  refine ⟨fun p => runImgs_suffix _ folder idxB imgsB fs₁ fs₂ hrunB p, ?_, ?_,
    fun e he => (hgood2 e he).2⟩
  · intro pr hpr
    obtain ⟨img, hmem, L, hplan, hprL⟩ := genPairsAux_mem_loaded d _ folder idxA
      (get_image_ids d cidA) imgsA hloadA pr hpr
    have h1 : pr.2 ∈ (fileLines fs₁ pr.1).map pyStrip :=
      runImgs_contain _ folder idxA imgsA [] fs₁ hrunA hTA' img hmem pr.1 L hplan
        pr.2 hprL
    exact count_one pr.1 pr.2
      (runImgs_mem_mono _ folder idxB imgsB fs₁ fs₂ pr.1 pr.2 hrunB h1)
  · intro pr hpr
    obtain ⟨img, hmem, L, hplan, hprL⟩ := genPairsAux_mem_loaded d _ folder idxB
      (get_image_ids d cidB) imgsB hloadB pr hpr
    exact count_one pr.1 pr.2
      (runImgs_contain _ folder idxB imgsB fs₁ fs₂ hrunB hTB' img hmem pr.1 L
        hplan pr.2 hprL)

/-- A dataset with one image and two annotations on it, one of category 7
and one of category 9, with the same bounding box. -/
def dsTwo : Dataset :=
  ⟨[⟨1, some ("http://images/pic.jpg"), some 100, some 50⟩],
   [⟨11, 1, 7, 5, some [10, 10, 20, 10]⟩, ⟨12, 1, 9, 5, some [10, 10, 20, 10]⟩]⟩

lemma bboxLine_pic1 : bboxLine 1 10 10 20 10 100 50 =
    "1 0.200000 0.300000 0.200000 0.200000" := by
  unfold bboxLine
  rw [format6_xc, format6_yc, format6_wn, format6_hn]
  decide

/-- Witness for C3 at `dsTwo`: export category 7 as class 0, then category
9 as class 1; the final `pic.txt` extends the first one, holds each of the
two lines exactly once, and has no duplicates. -/
theorem export_labels_additive_witness :
    (∃ t, fileLines [("pic.txt", ["0 0.200000 0.300000 0.200000 0.200000",
        "1 0.200000 0.300000 0.200000 0.200000"])] ("pic.txt") =
      fileLines [("pic.txt", ["0 0.200000 0.300000 0.200000 0.200000"])]
        ("pic.txt") ++ t) ∧
    (fileLines [("pic.txt", ["0 0.200000 0.300000 0.200000 0.200000",
        "1 0.200000 0.300000 0.200000 0.200000"])] ("pic.txt")).count
      ("0 0.200000 0.300000 0.200000 0.200000") = 1 ∧
    (fileLines [("pic.txt", ["0 0.200000 0.300000 0.200000 0.200000",
        "1 0.200000 0.300000 0.200000 0.200000"])] ("pic.txt")).count
      ("1 0.200000 0.300000 0.200000 0.200000") = 1 ∧
    (["0 0.200000 0.300000 0.200000 0.200000",
      "1 0.200000 0.300000 0.200000 0.200000"] : List String).Nodup := by
  have hA : export_labels dsTwo ("") 7 0 [] =
      .ok [("pic.txt", [bboxLine 0 10 10 20 10 100 50])] := rfl
  rw [bboxLine_pic0] at hA
  have hB : export_labels dsTwo ("") 9 1
      [("pic.txt", ["0 0.200000 0.300000 0.200000 0.200000"])] =
      .ok (fsAppendIfAbsent
        [("pic.txt", ["0 0.200000 0.300000 0.200000 0.200000"])]
        ("pic.txt") (bboxLine 1 10 10 20 10 100 50)) := rfl
  rw [bboxLine_pic1] at hB
  have hfin : fsAppendIfAbsent
      [("pic.txt", ["0 0.200000 0.300000 0.200000 0.200000"])]
      ("pic.txt") ("1 0.200000 0.300000 0.200000 0.200000") =
      [("pic.txt", ["0 0.200000 0.300000 0.200000 0.200000",
        "1 0.200000 0.300000 0.200000 0.200000"])] := by decide
  rw [hfin] at hB
  have hgpA : genPairs dsTwo ("") 7 0 =
      [("pic.txt", bboxLine 0 10 10 20 10 100 50)] := rfl
  rw [bboxLine_pic0] at hgpA
  have hgpB : genPairs dsTwo ("") 9 1 =
      [("pic.txt", bboxLine 1 10 10 20 10 100 50)] := rfl
  rw [bboxLine_pic1] at hgpB
  have hTA : ∀ pr ∈ genPairs dsTwo ("") 7 0, pyStrip pr.2 = pr.2 := by
    rw [hgpA]
    intro pr hpr
    rw [List.mem_singleton] at hpr
    rw [hpr]
    decide
  have hTB : ∀ pr ∈ genPairs dsTwo ("") 9 1, pyStrip pr.2 = pr.2 := by
    rw [hgpB]
    intro pr hpr
    rw [List.mem_singleton] at hpr
    rw [hpr]
    decide
  have H := export_labels_additive dsTwo ("") 7 0 9 1
    [("pic.txt", ["0 0.200000 0.300000 0.200000 0.200000"])]
    [("pic.txt", ["0 0.200000 0.300000 0.200000 0.200000",
      "1 0.200000 0.300000 0.200000 0.200000"])] hA hB hTA hTB
  refine ⟨H.1 ("pic.txt"), ?_, ?_, ?_⟩
  · have := H.2.1 ("pic.txt", "0 0.200000 0.300000 0.200000 0.200000")
      (by rw [hgpA]; exact List.mem_singleton.mpr rfl)
    exact this
  · have := H.2.2.1 ("pic.txt", "1 0.200000 0.300000 0.200000 0.200000")
      (by rw [hgpB]; exact List.mem_singleton.mpr rfl)
    exact this
  · exact H.2.2.2 ("pic.txt", ["0 0.200000 0.300000 0.200000 0.200000",
      "1 0.200000 0.300000 0.200000 0.200000"]) (List.mem_singleton.mpr rfl)

end LVIS
